import Mathlib

/-!
Verification of the attention notebook (`src/nlp/attention.ipynb`).

The notebook defines two pure numerical functions on real matrices:

* `basic_attention x`:
    `w = x.matmul(x.transpose(-1, -2))`;
    `normalized_w = F.softmax(w, dim = -1)`;
    `y = torch.matmul(normalized_w, x)`.
* `qkv_attention x` (with module-level matrices `wq`, `wk`, `wv`, made
  explicit parameters here):
    `q = x.matmul(wq)`; `k = x.matmul(wk)`; `v = x.matmul(wv)`;
    `w = q.matmul(k.transpose(-1, -2))`; `y = w.matmul(v)`.
  Note the implemented `qkv_attention` applies neither the `1/sqrt d`
  scaling nor a softmax between the score computation and the weighted sum.

We embed the tensors as Mathlib matrices over an arbitrary field, with the
exponential passed as an explicit function parameter `e` so that all
definitions stay computable; the theorems instantiate the field at `ℝ` and
`e` at `Real.exp`, which is the exact-real semantics of the torch code.
A second, list-based embedding with explicit dynamic shapes (`TensorL`)
models torch's runtime shape checking for the error-handling claims.
-/

open Matrix BigOperators

section MatrixDefs

variable {α : Type*} [Field α] {t d : ℕ}

/-- Torch `F.softmax` applied to one row: entry `j` of the softmax of the vector
`s` is `e (s j)` divided by the sum of `e (s k)` over the whole row. -/
def softmaxFun (e : α → α) (s : Fin t → α) : Fin t → α :=
  fun j => e (s j) / ∑ k, e (s k)

/-- The intermediate `w = x.matmul(x.transpose(-1, -2))` of `basic_attention`:
the raw score matrix `x * xᵀ`. -/
def basic_attention_scores (x : Matrix (Fin t) (Fin d) α) :
    Matrix (Fin t) (Fin t) α :=
  x * xᵀ

/-- The intermediate `normalized_w = F.softmax(w, dim = -1)` of
`basic_attention`: the row-wise softmax of the score matrix. -/
def basic_attention_weights (e : α → α) (x : Matrix (Fin t) (Fin d) α) :
    Matrix (Fin t) (Fin t) α :=
  Matrix.of fun i => softmaxFun e (basic_attention_scores x i)

/-- Function `basic_attention` from the notebook: `y = torch.matmul(normalized_w, x)`. -/
def basic_attention (e : α → α) (x : Matrix (Fin t) (Fin d) α) :
    Matrix (Fin t) (Fin d) α :=
  basic_attention_weights e x * x

/-- The intermediate `w = q.matmul(k.transpose(-1, -2))` of `qkv_attention`:
the raw score matrix `(x * wq) * (x * wk)ᵀ`.  The notebook applies no
normalization to it. -/
def qkv_attention_scores (x : Matrix (Fin t) (Fin d) α)
    (wq wk : Matrix (Fin d) (Fin d) α) : Matrix (Fin t) (Fin t) α :=
  (x * wq) * (x * wk)ᵀ

/-- Function `qkv_attention` from the notebook: `y = w.matmul(v)` with `v = x * wv`.
The module-level weights `wq`, `wk`, `wv` are explicit parameters here. -/
def qkv_attention (x : Matrix (Fin t) (Fin d) α)
    (wq wk wv : Matrix (Fin d) (Fin d) α) : Matrix (Fin t) (Fin d) α :=
  qkv_attention_scores x wq wk * (x * wv)

/-- The computation the specification describes for QKVAttention (claim C1):
scale the scores by the supplied factor, softmax each row, then apply the
normalized weights to the values.  Written from the spec's words, for
comparison with the implemented `qkv_attention`. -/
def qkv_attention_spec (e : α → α) (scale : α) (x : Matrix (Fin t) (Fin d) α)
    (wq wk wv : Matrix (Fin d) (Fin d) α) : Matrix (Fin t) (Fin d) α :=
  let s := scale • qkv_attention_scores x wq wk
  let wn := Matrix.of fun i => softmaxFun e (s i)
  wn * (x * wv)

end MatrixDefs

/-- A torch 2-D tensor with dynamic shape: explicit row and column counts
plus row-major data.  Used to model torch's runtime shape checking. -/
structure TensorL (α : Type*) where
  rows : ℕ
  cols : ℕ
  data : List (List α)

section TensorDefs

variable {α : Type*} [Field α]

/-- Well-formedness of a dynamic tensor: the data has exactly `rows` rows,
each of length `cols`. -/
def TensorL.WF (A : TensorL α) : Prop :=
  A.data.length = A.rows ∧ ∀ r ∈ A.data, r.length = A.cols

/-- Torch `tensor.transpose(-1, -2)` on a dynamic 2-D tensor. -/
def TensorL.transpose (A : TensorL α) : TensorL α :=
  ⟨A.cols, A.rows, (List.range A.cols).map fun j => A.data.map fun r => r.getD j 0⟩

/-- Torch `torch.matmul` on 2-D tensors: torch raises a runtime error when the
inner dimensions disagree, modelled as `none`; otherwise the usual matrix
product. -/
def TensorL.matmul (A B : TensorL α) : Option (TensorL α) :=
  if A.cols = B.rows then
    some ⟨A.rows, B.cols,
      A.data.map fun r =>
        (List.range B.cols).map fun j =>
          (List.zipWith (fun a br => a * br.getD j 0) r B.data).sum⟩
  else none

/-- Torch `F.softmax(w, dim = -1)` applied to one row of a dynamic tensor. -/
def softmaxRowL (e : α → α) (r : List α) : List α :=
  r.map fun z => e z / (r.map e).sum

/-- Function `basic_attention` on a dynamic tensor, propagating torch's shape
errors. -/
def basic_attentionT (e : α → α) (x : TensorL α) : Option (TensorL α) := do
  let w ← x.matmul x.transpose
  let normalized_w : TensorL α := ⟨w.rows, w.cols, w.data.map (softmaxRowL e)⟩
  normalized_w.matmul x

/-- Function `qkv_attention` on dynamic tensors, propagating torch's shape errors. -/
def qkv_attentionT (x wq wk wv : TensorL α) : Option (TensorL α) := do
  let q ← x.matmul wq
  let k ← x.matmul wk
  let v ← x.matmul wv
  let w ← q.matmul k.transpose
  w.matmul v

end TensorDefs

section BasicFacts

variable {t d : ℕ}

/-- Claim C2: for every input `X` of shape `(t, d)`, `basic_attention`
returns `Y = Wn · X`, where `S = X · Xᵀ` (so `S i j` is the dot product of
rows `x_i` and `x_j`) and `Wn` is the row-wise softmax of `S`; here the
whole pipeline is expanded entrywise. -/
theorem basic_attention_formula (x : Matrix (Fin t) (Fin d) ℝ)
    (i : Fin t) (j : Fin d) :
    basic_attention Real.exp x i j =
      ∑ k, (Real.exp (∑ m, x i m * x k m) /
        ∑ l, Real.exp (∑ m, x i m * x l m)) * x k j := by
  simp [basic_attention, basic_attention_weights, basic_attention_scores,
    softmaxFun, Matrix.mul_apply]

/-- Claim C6: with identity weight matrices of size `(2, 2)`, the
implemented `qkv_attention` returns exactly the unnormalized pre-softmax
quantity `(X · Xᵀ) · X` for every `X`. -/
theorem qkv_attention_identity_weights (x : Matrix (Fin t) (Fin 2) ℝ) :
    qkv_attention x 1 1 1 = basic_attention_scores x * x := by
  simp [qkv_attention, qkv_attention_scores, basic_attention_scores,
    Matrix.mul_one]

/-- Claim C9: on a single-row input, `basic_attention` returns the input
unchanged: the `1 × 1` score matrix softmaxes to `[1]`. -/
theorem basic_attention_single_row (x : Matrix (Fin 1) (Fin d) ℝ) :
    basic_attention Real.exp x = x := by
  ext i j
  simp [basic_attention, basic_attention_weights, basic_attention_scores,
    softmaxFun, Matrix.mul_apply, Fin.sum_univ_one,
    div_self (Real.exp_ne_zero _), Subsingleton.elim i 0]

/-- Claim C10: the implemented `qkv_attention` is degree-3 homogeneous in
its input: scaling `X` by `c` scales the output by `c ^ 3`, because no
softmax or other normalization intervenes. -/
theorem qkv_attention_cubic_homogeneous (c : ℝ) (x : Matrix (Fin t) (Fin d) ℝ)
    (wq wk wv : Matrix (Fin d) (Fin d) ℝ) :
    qkv_attention (c • x) wq wk wv = c ^ 3 • qkv_attention x wq wk wv := by
  simp only [qkv_attention, qkv_attention_scores, Matrix.smul_mul,
    Matrix.transpose_smul, Matrix.mul_smul, smul_smul]
  congr 1
  ring

end BasicFacts

section QkvCorrections

variable {t d : ℕ}

/-- Claim C1 (counterexample): at `X = [[2]]`, `Wq = Wk = Wv = [[1]]`, the
implemented `qkv_attention` returns `[[8]]` while the specified pipeline
(scale by `1/sqrt d`, row softmax, weighted sum) returns `[[2]]`; the
implementation therefore does not scale or softmax its scores. -/
theorem qkv_attention_spec_counterexample :
    qkv_attention !![(2 : ℝ)] !![1] !![1] !![1] ≠
      qkv_attention_spec Real.exp (Real.sqrt 1)⁻¹ !![(2 : ℝ)] !![1] !![1] !![1] := by
  intro h
  have h8 : qkv_attention !![(2 : ℝ)] !![1] !![1] !![1] 0 0 = 8 := by
    norm_num [qkv_attention, qkv_attention_scores, Matrix.mul_apply,
      Fin.sum_univ_one, Matrix.transpose_apply, Matrix.vecHead]
  have h2 : qkv_attention_spec Real.exp (Real.sqrt 1)⁻¹
      !![(2 : ℝ)] !![1] !![1] !![1] 0 0 = 2 := by
    norm_num [qkv_attention_spec, qkv_attention_scores, softmaxFun,
      Matrix.mul_apply, Fin.sum_univ_one, Matrix.transpose_apply,
      Real.sqrt_one, div_self (Real.exp_ne_zero _)]
  rw [h, h2] at h8
  norm_num at h8

/-- Claim C1 (amended): the implemented `qkv_attention` computes
`Q = X·Wq`, `K = X·Wk`, `V = X·Wv`, the raw score `S = Q·Kᵀ`, and returns
`S·V` directly, with no `1/sqrt d` scaling and no softmax; expanded
entrywise. -/
theorem qkv_attention_formula (x : Matrix (Fin t) (Fin d) ℝ)
    (wq wk wv : Matrix (Fin d) (Fin d) ℝ) (i : Fin t) (j : Fin d) :
    qkv_attention x wq wk wv i j =
      ∑ k, (∑ a, (∑ b, x i b * wq b a) * (∑ b, x k b * wk b a)) *
        (∑ b, x k b * wv b j) := by
  simp only [qkv_attention, qkv_attention_scores, Matrix.mul_apply,
    Matrix.transpose_apply]

/-- Claim C4 (counterexample): at `X = [[2]]`, `Wq = Wk = [[1]]`, the row of
the internal weight matrix that the implemented `qkv_attention` applies to
the values sums to `4`, missing `1` by far more than the claimed `1e-6`
tolerance: the implementation never normalizes it. -/
theorem qkv_attention_weights_not_row_stochastic :
    ¬ |(∑ j, qkv_attention_scores !![(2 : ℝ)] !![1] !![1] 0 j) - 1| ≤ 1e-6 := by
  have h4 : (∑ j, qkv_attention_scores !![(2 : ℝ)] !![1] !![1] 0 j) = 4 := by
    simp [qkv_attention_scores, Matrix.mul_apply, Fin.sum_univ_one]
    norm_num
  rw [h4]
  rw [show |(4 : ℝ) - 1| = 3 by norm_num [abs_of_pos]]
  norm_num

/-- Claim C4 (amended): the internal normalized weight matrix of
`basic_attention` is row-stochastic — each row sums to exactly `1` (so in
particular to `1` within `1e-6`) and every entry is non-negative; the
implemented `qkv_attention` computes no such normalized matrix. -/
theorem basic_attention_weights_row_stochastic
    (x : Matrix (Fin t) (Fin d) ℝ) (i : Fin t) :
    (∑ j, basic_attention_weights Real.exp x i j) = 1 ∧
      ∀ j, 0 ≤ basic_attention_weights Real.exp x i j := by
  have hZ : 0 < ∑ l, Real.exp (basic_attention_scores x i l) :=
    Finset.sum_pos (fun l _ => Real.exp_pos _) ⟨i, Finset.mem_univ i⟩
  constructor
  · simp only [basic_attention_weights, Matrix.of_apply, softmaxFun]
    rw [← Finset.sum_div, div_self (ne_of_gt hZ)]
  · intro j
    simp only [basic_attention_weights, Matrix.of_apply, softmaxFun]
    positivity

end QkvCorrections

section Equivariance

variable {α : Type*} [Field α] {t d : ℕ}

/-- Softmax commutes with re-indexing a row by a permutation. -/
lemma softmaxFun_comp_perm (e : α → α) (σ : Equiv.Perm (Fin t))
    (s : Fin t → α) (j : Fin t) :
    softmaxFun e (fun k => s (σ k)) j = softmaxFun e s (σ j) := by
  simp only [softmaxFun]
  rw [Equiv.sum_comp σ fun k => e (s k)]

/-- A weight matrix conjugated by a row permutation, applied to
row-permuted values, yields the permuted rows of the original product. -/
lemma perm_weights_mul (σ : Equiv.Perm (Fin t))
    (W W2 : Matrix (Fin t) (Fin t) α) (y : Matrix (Fin t) (Fin d) α)
    (hW : ∀ i k, W2 i k = W (σ i) (σ k)) (i : Fin t) (j : Fin d) :
    (W2 * y.submatrix σ id) i j = (W * y) (σ i) j := by
  simp only [Matrix.mul_apply, Matrix.submatrix_apply, hW, id_eq]
  exact Equiv.sum_comp σ fun k => W (σ i) k * y k j

/-- Permuting the rows of the input permutes the rows and columns of the
basic score matrix simultaneously. -/
lemma basic_attention_scores_perm (σ : Equiv.Perm (Fin t))
    (x : Matrix (Fin t) (Fin d) α) (i k : Fin t) :
    basic_attention_scores (x.submatrix σ id) i k =
      basic_attention_scores x (σ i) (σ k) := by
  simp [basic_attention_scores, Matrix.mul_apply, Matrix.submatrix_apply,
    Matrix.transpose_apply]

/-- Permuting the rows of the input permutes the rows and columns of the
normalized basic weight matrix simultaneously. -/
lemma basic_attention_weights_perm (e : α → α) (σ : Equiv.Perm (Fin t))
    (x : Matrix (Fin t) (Fin d) α) (i k : Fin t) :
    basic_attention_weights e (x.submatrix σ id) i k =
      basic_attention_weights e x (σ i) (σ k) := by
  simp only [basic_attention_weights, Matrix.of_apply]
  rw [show basic_attention_scores (x.submatrix σ id) i
      = fun k => basic_attention_scores x (σ i) (σ k) from
    funext fun k => basic_attention_scores_perm σ x i k]
  exact softmaxFun_comp_perm e σ _ k

/-- Permuting the rows of the input permutes the rows and columns of the
raw QKV score matrix simultaneously. -/
lemma qkv_attention_scores_perm (σ : Equiv.Perm (Fin t))
    (x : Matrix (Fin t) (Fin d) α) (wq wk : Matrix (Fin d) (Fin d) α)
    (i k : Fin t) :
    qkv_attention_scores (x.submatrix σ id) wq wk i k =
      qkv_attention_scores x wq wk (σ i) (σ k) := by
  simp [qkv_attention_scores, Matrix.mul_apply, Matrix.submatrix_apply,
    Matrix.transpose_apply]

/-- A row re-indexing of the left factor passes through a matrix product. -/
lemma submatrix_mul_left (σ : Fin t → Fin t) (x : Matrix (Fin t) (Fin d) α)
    (M : Matrix (Fin d) (Fin d) α) :
    x.submatrix σ id * M = (x * M).submatrix σ id := by
  ext i j
  simp [Matrix.mul_apply, Matrix.submatrix_apply]

/-- Claim C3: both attention functions are permutation equivariant: for
every permutation `σ` of the row indices, applying either function to the
row-permuted input yields the row-permuted original output, with the
weights held fixed in the QKV case. -/
theorem attention_permutation_equivariant (σ : Equiv.Perm (Fin t))
    (x : Matrix (Fin t) (Fin d) ℝ) (wq wk wv : Matrix (Fin d) (Fin d) ℝ) :
    basic_attention Real.exp (x.submatrix σ id) =
        (basic_attention Real.exp x).submatrix σ id ∧
      qkv_attention (x.submatrix σ id) wq wk wv =
        (qkv_attention x wq wk wv).submatrix σ id := by
  constructor
  · ext i j
    simp only [basic_attention, Matrix.submatrix_apply, id_eq]
    exact perm_weights_mul σ _ _ x
      (basic_attention_weights_perm Real.exp σ x) i j
  · ext i j
    simp only [qkv_attention, Matrix.submatrix_apply, id_eq]
    rw [submatrix_mul_left (⇑σ) x wv]
    exact perm_weights_mul σ _ _ (x * wv)
      (qkv_attention_scores_perm σ x wq wk) i j

end Equivariance

section TensorFacts

variable {α : Type*} [Field α]

/-- The dimension check of `TensorL.matmul` succeeds exactly on matching
inner dimensions. -/
lemma TensorL.matmul_isSome {A B : TensorL α} (h : A.cols = B.rows) :
    (A.matmul B).isSome := by
  simp [TensorL.matmul, h]

/-- Mismatched inner dimensions make `TensorL.matmul` fail. -/
lemma TensorL.matmul_none {A B : TensorL α} (h : A.cols ≠ B.rows) :
    A.matmul B = none := by
  simp [TensorL.matmul, h]

/-- Shape of a successful `TensorL.matmul`: the row count and data length
come from the left factor, the column counts from the right factor. -/
lemma TensorL.matmul_shape {A B C : TensorL α} (h : A.matmul B = some C) :
    C.rows = A.rows ∧ C.cols = B.cols ∧ C.data.length = A.data.length ∧
      ∀ r ∈ C.data, r.length = B.cols := by
  by_cases hc : A.cols = B.rows
  · simp only [TensorL.matmul, if_pos hc, Option.some.injEq] at h
    subst h
    refine ⟨rfl, rfl, by simp, ?_⟩
    intro r hr
    simp only [List.mem_map] at hr
    obtain ⟨r0, -, rfl⟩ := hr
    simp
  · simp [TensorL.matmul, hc] at h

/-- The function `basic_attentionT` never fails: the shapes of `x` and `xᵀ` always
match, and the output has the shape of the input. -/
lemma basic_attentionT_succeeds (e : α → α) (x : TensorL α) :
    ∃ y, basic_attentionT e x = some y ∧ y.rows = x.rows ∧ y.cols = x.cols ∧
      y.data.length = x.data.length ∧ ∀ r ∈ y.data, r.length = x.cols := by
  obtain ⟨w, hw⟩ := Option.isSome_iff_exists.mp
    (TensorL.matmul_isSome (A := x) (B := x.transpose) rfl)
  obtain ⟨hwr, hwc, hwl, -⟩ := TensorL.matmul_shape hw
  have hnwc : w.cols = x.rows := hwc
  obtain ⟨y, hy⟩ := Option.isSome_iff_exists.mp
    (TensorL.matmul_isSome
      (A := ⟨w.rows, w.cols, w.data.map (softmaxRowL e)⟩) (B := x) hnwc)
  obtain ⟨hyr, hyc, hyl, hylen⟩ := TensorL.matmul_shape hy
  refine ⟨y, ?_, ?_, hyc, ?_, hylen⟩
  · simp only [basic_attentionT]
    rw [hw]
    simpa using hy
  · rw [hyr]
    exact hwr
  · rw [hyl]
    simpa using hwl

/-- With matching dimensions, `qkv_attentionT` succeeds and its output has
`x`'s row count and `wv`'s column count. -/
lemma qkv_attentionT_succeeds (x wq wk wv : TensorL α)
    (h1 : x.cols = wq.rows) (h2 : x.cols = wk.rows) (h3 : x.cols = wv.rows)
    (h4 : wq.cols = wk.cols) :
    ∃ y, qkv_attentionT x wq wk wv = some y ∧ y.rows = x.rows ∧
      y.cols = wv.cols ∧ y.data.length = x.data.length ∧
      ∀ r ∈ y.data, r.length = wv.cols := by
  obtain ⟨q, hq⟩ := Option.isSome_iff_exists.mp (TensorL.matmul_isSome h1)
  obtain ⟨hqr, hqc, hql, -⟩ := TensorL.matmul_shape hq
  obtain ⟨k, hk⟩ := Option.isSome_iff_exists.mp (TensorL.matmul_isSome h2)
  obtain ⟨hkr, hkc, hkl, -⟩ := TensorL.matmul_shape hk
  obtain ⟨v, hv⟩ := Option.isSome_iff_exists.mp (TensorL.matmul_isSome h3)
  obtain ⟨hvr, hvc, hvl, -⟩ := TensorL.matmul_shape hv
  have hqk : q.cols = k.transpose.rows := by
    show q.cols = k.cols
    rw [hqc, hkc]
    exact h4
  obtain ⟨w, hwm⟩ := Option.isSome_iff_exists.mp (TensorL.matmul_isSome hqk)
  obtain ⟨hwr, hwc, hwl, -⟩ := TensorL.matmul_shape hwm
  have hwv : w.cols = v.rows := by
    rw [hwc]
    show k.rows = v.rows
    rw [hkr, hvr]
  obtain ⟨y, hy⟩ := Option.isSome_iff_exists.mp (TensorL.matmul_isSome hwv)
  obtain ⟨hyr, hyc, hyl, hylen⟩ := TensorL.matmul_shape hy
  refine ⟨y, ?_, ?_, ?_, ?_, ?_⟩
  · simp only [qkv_attentionT, Option.bind_eq_bind']
    rw [hq]
    simp only [Option.some_bind]
    rw [hk]
    simp only [Option.some_bind]
    rw [hv]
    simp only [Option.some_bind]
    rw [hwm]
    simp only [Option.some_bind]
    exact hy
  · rw [hyr, hwr]
    exact hqr
  · rw [hyc]
    exact hvc
  · rw [hyl, hwl]
    exact hql
  · intro r hr
    exact (hylen r hr).trans hvc

/-- The function `qkv_attentionT` fails exactly when some pair of inner dimensions
disagrees. -/
lemma qkv_attentionT_none_iff (x wq wk wv : TensorL α) :
    qkv_attentionT x wq wk wv = none ↔
      ¬(x.cols = wq.rows ∧ x.cols = wk.rows ∧ x.cols = wv.rows ∧
        wq.cols = wk.cols) := by
  constructor
  · intro hn hc
    obtain ⟨y, hy, -, -, -, -⟩ :=
      qkv_attentionT_succeeds x wq wk wv hc.1 hc.2.1 hc.2.2.1 hc.2.2.2
    rw [hy] at hn
    cases hn
  · intro hc
    by_cases h1 : x.cols = wq.rows
    · obtain ⟨q, hq⟩ := Option.isSome_iff_exists.mp (TensorL.matmul_isSome h1)
      obtain ⟨hqr, hqc, -, -⟩ := TensorL.matmul_shape hq
      by_cases h2 : x.cols = wk.rows
      · obtain ⟨k, hk⟩ := Option.isSome_iff_exists.mp (TensorL.matmul_isSome h2)
        obtain ⟨hkr, hkc, -, -⟩ := TensorL.matmul_shape hk
        by_cases h3 : x.cols = wv.rows
        · obtain ⟨v, hv⟩ :=
            Option.isSome_iff_exists.mp (TensorL.matmul_isSome h3)
          have h4 : wq.cols ≠ wk.cols := fun h4 => hc ⟨h1, h2, h3, h4⟩
          have hqk : q.cols ≠ k.transpose.rows := by
            show ¬q.cols = k.cols
            rw [hqc, hkc]
            exact h4
          simp [qkv_attentionT, hq, hk, hv, TensorL.matmul_none hqk]
        · simp [qkv_attentionT, hq, hk, TensorL.matmul_none h3]
      · simp [qkv_attentionT, hq, TensorL.matmul_none h2]
    · simp [qkv_attentionT, TensorL.matmul_none h1]

end TensorFacts

section ErrorAndShape

/-- Claim C5 (counterexample): on the empty sequence (`t = 0`, `d = 2`) the
code raises no error at all: `basic_attention` returns the empty `(0, 2)`
result instead of failing with an `EmptyInput` error. -/
theorem basic_attentionT_empty_input :
    basic_attentionT Real.exp (⟨0, 2, []⟩ : TensorL ℝ) = some ⟨0, 2, []⟩ := by
  rfl

/-- Claim C5 (amended): `qkv_attention` fails with the numeric library's
shape error exactly when matrix dimensions are incompatible for its
multiplications; `basic_attention` never meets incompatible dimensions and
raises no error for any input — in particular a sequence length of zero
yields an empty output rather than an `EmptyInput` error. -/
theorem attention_error_conditions :
    (∀ x wq wk wv : TensorL ℝ,
      qkv_attentionT x wq wk wv = none ↔
        ¬(x.cols = wq.rows ∧ x.cols = wk.rows ∧ x.cols = wv.rows ∧
          wq.cols = wk.cols)) ∧
    (∀ x : TensorL ℝ, ∃ y, basic_attentionT Real.exp x = some y) ∧
    basic_attentionT Real.exp (⟨0, 2, []⟩ : TensorL ℝ) = some ⟨0, 2, []⟩ := by
  refine ⟨fun x wq wk wv => qkv_attentionT_none_iff x wq wk wv,
    fun x => ?_, rfl⟩
  obtain ⟨y, hy, -, -, -, -⟩ := basic_attentionT_succeeds Real.exp x
  exact ⟨y, hy⟩

/-- Witness for the amended claim C5: with `X = [[2]]` and `1 × 1` weights
the shapes match and no error is raised, while a `2 × 2` query weight
matrix on the same one-column input triggers the shape error. -/
theorem attention_error_conditions_witness :
    qkv_attentionT (⟨1, 1, [[2]]⟩ : TensorL ℝ) ⟨1, 1, [[1]]⟩ ⟨1, 1, [[1]]⟩
        ⟨1, 1, [[1]]⟩ ≠ none ∧
      qkv_attentionT (⟨1, 1, [[2]]⟩ : TensorL ℝ) ⟨2, 2, [[1, 0], [0, 1]]⟩
        ⟨1, 1, [[1]]⟩ ⟨1, 1, [[1]]⟩ = none := by
  constructor
  · intro h
    exact (attention_error_conditions.1 _ _ _ _).mp h ⟨rfl, rfl, rfl, rfl⟩
  · refine (attention_error_conditions.1 _ _ _ _).mpr fun hc => ?_
    exact absurd hc.1 (by norm_num)

/-- Claim C7: shape preservation: on a well-formed `(t, d)` input (and, for
QKV, well-matched `(d, d)` weights) both functions return a well-formed
matrix of the same shape `(t, d)` as the input. -/
theorem attention_shape_preservation :
    (∀ x : TensorL ℝ, x.WF →
      ∃ y, basic_attentionT Real.exp x = some y ∧ y.WF ∧
        y.rows = x.rows ∧ y.cols = x.cols) ∧
    (∀ x wq wk wv : TensorL ℝ, x.WF →
      wq.rows = x.cols → wq.cols = x.cols → wk.rows = x.cols →
      wk.cols = x.cols → wv.rows = x.cols → wv.cols = x.cols →
      ∃ y, qkv_attentionT x wq wk wv = some y ∧ y.WF ∧
        y.rows = x.rows ∧ y.cols = x.cols) := by
  constructor
  · intro x hx
    obtain ⟨y, hy, h1, h2, h3, h4⟩ := basic_attentionT_succeeds Real.exp x
    refine ⟨y, hy, ⟨?_, ?_⟩, h1, h2⟩
    · rw [h3, hx.1, h1]
    · intro r hr
      rw [h4 r hr, h2]
  · intro x wq wk wv hx hq1 hq2 hk1 hk2 hv1 hv2
    obtain ⟨y, hy, h1, h2, h3, h4⟩ :=
      qkv_attentionT_succeeds x wq wk wv hq1.symm hk1.symm hv1.symm
        (by rw [hq2, hk2])
    refine ⟨y, hy, ⟨?_, ?_⟩, h1, ?_⟩
    · rw [h3, hx.1, h1]
    · intro r hr
      rw [h4 r hr, h2]
    · rw [h2, hv2]

/-- Witness for claim C7 at the identity input of shape `(2, 2)` with
identity weight matrices. -/
theorem attention_shape_preservation_witness :
    (∃ y, basic_attentionT Real.exp (⟨2, 2, [[1, 0], [0, 1]]⟩ : TensorL ℝ) =
        some y ∧ y.WF ∧ y.rows = 2 ∧ y.cols = 2) ∧
    (∃ y, qkv_attentionT (⟨2, 2, [[1, 0], [0, 1]]⟩ : TensorL ℝ)
        ⟨2, 2, [[1, 0], [0, 1]]⟩ ⟨2, 2, [[1, 0], [0, 1]]⟩
        ⟨2, 2, [[1, 0], [0, 1]]⟩ = some y ∧ y.WF ∧ y.rows = 2 ∧
        y.cols = 2) := by
  have hwf : (⟨2, 2, [[1, 0], [0, 1]]⟩ : TensorL ℝ).WF := by
    refine ⟨rfl, ?_⟩
    intro r hr
    simp only [List.mem_cons, List.not_mem_nil, or_false] at hr
    rcases hr with rfl | rfl <;> rfl
  exact ⟨attention_shape_preservation.1 _ hwf,
    attention_shape_preservation.2 _ _ _ _ hwf rfl rfl rfl rfl rfl rfl⟩

end ErrorAndShape

section RegressionExample

/-- Claim C8: on `X = [[1,0],[0,1]]` the score matrix is `[[1,0],[0,1]]`,
and both the softmax weight matrix and the output are within `1e-3` of
`[[0.731, 0.269], [0.269, 0.731]]`. -/
theorem basic_attention_identity_regression :
    basic_attention_scores (!![1, 0; 0, 1] : Matrix (Fin 2) (Fin 2) ℝ) =
        !![1, 0; 0, 1] ∧
      (∀ i j, |basic_attention_weights Real.exp
          (!![1, 0; 0, 1] : Matrix (Fin 2) (Fin 2) ℝ) i j -
        !![(0.731 : ℝ), 0.269; 0.269, 0.731] i j| ≤ 0.001) ∧
      (∀ i j, |basic_attention Real.exp
          (!![1, 0; 0, 1] : Matrix (Fin 2) (Fin 2) ℝ) i j -
        !![(0.731 : ℝ), 0.269; 0.269, 0.731] i j| ≤ 0.001) := by
  have hS : basic_attention_scores
      (!![1, 0; 0, 1] : Matrix (Fin 2) (Fin 2) ℝ) = !![1, 0; 0, 1] := by
    ext i j
    simp only [basic_attention_scores, Matrix.mul_apply,
      Matrix.transpose_apply, Fin.sum_univ_two]
    fin_cases i <;> fin_cases j <;> norm_num
  have he1 := Real.exp_one_gt_d9
  have he2 := Real.exp_one_lt_d9
  have hep : (0 : ℝ) < Real.exp 1 + 1 := by positivity
  have hb1 : (0.730 : ℝ) ≤ Real.exp 1 / (Real.exp 1 + 1) := by
    rw [le_div_iff₀ hep]
    linarith
  have hb2 : Real.exp 1 / (Real.exp 1 + 1) ≤ 0.732 := by
    rw [div_le_iff₀ hep]
    linarith
  have hb3 : (0.268 : ℝ) ≤ 1 / (Real.exp 1 + 1) := by
    rw [le_div_iff₀ hep]
    linarith
  have hb4 : (1 : ℝ) / (Real.exp 1 + 1) ≤ 0.270 := by
    rw [div_le_iff₀ hep]
    linarith
  have hw00 : basic_attention_weights Real.exp
      (!![1, 0; 0, 1] : Matrix (Fin 2) (Fin 2) ℝ) 0 0 =
      Real.exp 1 / (Real.exp 1 + 1) := by
    norm_num [basic_attention_weights, softmaxFun, hS, Fin.sum_univ_two,
      Real.exp_zero]
  have hw01 : basic_attention_weights Real.exp
      (!![1, 0; 0, 1] : Matrix (Fin 2) (Fin 2) ℝ) 0 1 =
      1 / (Real.exp 1 + 1) := by
    norm_num [basic_attention_weights, softmaxFun, hS, Fin.sum_univ_two,
      Real.exp_zero]
  have hw10 : basic_attention_weights Real.exp
      (!![1, 0; 0, 1] : Matrix (Fin 2) (Fin 2) ℝ) 1 0 =
      1 / (Real.exp 1 + 1) := by
    norm_num [basic_attention_weights, softmaxFun, hS, Fin.sum_univ_two,
      Real.exp_zero, add_comm]
  have hw11 : basic_attention_weights Real.exp
      (!![1, 0; 0, 1] : Matrix (Fin 2) (Fin 2) ℝ) 1 1 =
      Real.exp 1 / (Real.exp 1 + 1) := by
    norm_num [basic_attention_weights, softmaxFun, hS, Fin.sum_univ_two,
      Real.exp_zero, add_comm]
  have hw : ∀ i j, |basic_attention_weights Real.exp
      (!![1, 0; 0, 1] : Matrix (Fin 2) (Fin 2) ℝ) i j -
      !![(0.731 : ℝ), 0.269; 0.269, 0.731] i j| ≤ 0.001 := by
    simp only [Fin.forall_fin_two]
    refine ⟨⟨?_, ?_⟩, ?_, ?_⟩
    · rw [hw00, show (!![(0.731 : ℝ), 0.269; 0.269, 0.731] 0 0) = 0.731 by
        norm_num, abs_le]
      constructor <;> linarith
    · rw [hw01, show (!![(0.731 : ℝ), 0.269; 0.269, 0.731] 0 1) = 0.269 by
        norm_num, abs_le]
      constructor <;> linarith
    · rw [hw10, show (!![(0.731 : ℝ), 0.269; 0.269, 0.731] 1 0) = 0.269 by
        norm_num, abs_le]
      constructor <;> linarith
    · rw [hw11, show (!![(0.731 : ℝ), 0.269; 0.269, 0.731] 1 1) = 0.731 by
        norm_num, abs_le]
      constructor <;> linarith
  have hY : basic_attention Real.exp
      (!![1, 0; 0, 1] : Matrix (Fin 2) (Fin 2) ℝ) =
      basic_attention_weights Real.exp !![1, 0; 0, 1] := by
    simp only [basic_attention]
    nth_rewrite 2 [show (!![1, 0; 0, 1] : Matrix (Fin 2) (Fin 2) ℝ) = 1 from
      Matrix.one_fin_two.symm]
    rw [Matrix.mul_one]
  refine ⟨hS, hw, ?_⟩
  intro i j
  rw [hY]
  exact hw i j

end RegressionExample
